import Mathlib

/-!
Shallow embedding of the tsic-rs TSIC 306 sensor driver (`src/lib.rs`).

The signal pin is modelled by a trace: a list of successive read results,
where `some b` is a successful level read (`true` = high, `false` = low) and
`none` is a hardware read failure.  Every pin read consumes exactly one trace
element.  Busy-wait delays are logged (the microsecond argument of each
`delay_us` call, in order), and supply-pin writes are logged as the level
written.  The polling loops of the source are unbounded; an execution whose
trace runs out is reported as `Status.hang` (the code would still be
spinning, so no result and no further effects are determined).
-/

/-- Errors of the driver, mirroring `enum TsicError`. -/
inductive TsicError where
  | ParityCheckFailed
  | PinReadError
  | PinWriteError
deriving DecidableEq, Repr

/-- The signal-pin trace: successive read results; `none` is a failed read. -/
abbrev Trace := List (Option Bool)

/-- Status of running a code fragment on a trace: it returned a value,
failed with a `TsicError`, or was still spinning when the trace ended. -/
inductive Status (α : Type) where
  | ok : α → Status α
  | err : TsicError → Status α
  | hang : Status α
deriving DecidableEq, Repr

/-- Map a function over the `ok` value of a `Status`. -/
def Status.map {α β : Type} (f : α → β) : Status α → Status β
  | .ok a => .ok (f a)
  | .err e => .err e
  | .hang => .hang

/-- Outcome of a fragment: final status, the microsecond delays performed
(in order), and the remaining trace at the point the fragment stopped. -/
structure Res (α : Type) where
  status : Status α
  delays : List Nat
  trace : Trace
deriving DecidableEq, Repr

/-- Sequencing of fragments: thread the remaining trace and append delays. -/
def Res.bind {α β : Type} (r : Res α) (f : α → Trace → Res β) : Res β :=
  match r.status with
  | .ok a =>
      let s := f a r.trace
      ⟨s.status, r.delays ++ s.delays, s.trace⟩
  | .err e => ⟨.err e, r.delays, r.trace⟩
  | .hang => ⟨.hang, r.delays, r.trace⟩

/-- A `delay.delay_us n` call: succeeds, logs `n` microseconds. -/
def delayUs (n : Nat) (t : Trace) : Res Unit := ⟨.ok (), [n], t⟩

/-- `Tsic::is_high`: one read of the signal pin. -/
def isHigh : Trace → Res Bool
  | [] => ⟨.hang, [], []⟩
  | none :: rest => ⟨.err .PinReadError, [], rest⟩
  | some b :: rest => ⟨.ok b, [], rest⟩

/-- `Tsic::wait_until_low`: `while self.is_high()? {}`. -/
def waitUntilLow : Trace → Res Unit
  | [] => ⟨.hang, [], []⟩
  | none :: rest => ⟨.err .PinReadError, [], rest⟩
  | some true :: rest => waitUntilLow rest
  | some false :: rest => ⟨.ok (), [], rest⟩

/-- `Tsic::wait_until_high`: `while self.is_low()? {}`. -/
def waitUntilHigh : Trace → Res Unit
  | [] => ⟨.hang, [], []⟩
  | none :: rest => ⟨.err .PinReadError, [], rest⟩
  | some false :: rest => waitUntilHigh rest
  | some true :: rest => ⟨.ok (), [], rest⟩

/-- The loop of `Tsic::strobe_len`: while the line reads low, add 8 µs
(`STROBE_SAMPLING_RATE`) to the accumulator and busy-wait those 8 µs. -/
def strobeLenAux (acc : Nat) : Trace → Res Nat
  | [] => ⟨.hang, [], []⟩
  | none :: rest => ⟨.err .PinReadError, [], rest⟩
  | some false :: rest =>
      let r := strobeLenAux (acc + 8) rest
      ⟨r.status, 8 :: r.delays, r.trace⟩
  | some true :: rest => ⟨.ok acc, [], rest⟩

/-- `Tsic::strobe_len`: accumulated low duration of the line, in µs. -/
def strobe_len (t : Trace) : Res Nat := strobeLenAux 0 t

/-- Fuel-driven binary popcount; with fuel at least the value it computes
`u16::count_ones` of the value. -/
def countOnesAux : Nat → Nat → Nat
  | 0, _ => 0
  | _ + 1, 0 => 0
  | fuel + 1, n + 1 => (n + 1) % 2 + countOnesAux fuel ((n + 1) / 2)

/-- `u16::count_ones` (number of set bits of the value). -/
def countOnes (n : Nat) : Nat := countOnesAux n n

/-- `struct Packet`: raw measured bits (a `u16` in the source). -/
structure Packet where
  raw_bits : Nat
deriving DecidableEq, Repr

/-- `Packet::has_even_parity`: `raw.count_ones() % 2 == 0`. -/
def Packet.has_even_parity (raw : Nat) : Bool := countOnes raw % 2 == 0

/-- `Packet::new`: parity-validate the raw bits. -/
def Packet.new (raw_bits : Nat) : Except TsicError Packet :=
  if Packet.has_even_parity raw_bits then .ok ⟨raw_bits⟩
  else .error .ParityCheckFailed

/-- `Packet::value`: the data without the parity bit, `raw_bits >> 1`. -/
def Packet.value (p : Packet) : Nat := p.raw_bits >>> 1

/-- `struct Temperature`: the combined 16-bit raw reading. -/
structure Temperature where
  raw : Nat
deriving DecidableEq, Repr

/-- `Temperature::new`: `(first.value() << 8) | second.value()` in `u16`
arithmetic (the shift wraps modulo `2 ^ 16`). -/
def Temperature.new (first second : Packet) : Temperature :=
  ⟨((first.value <<< 8) % 65536) ||| second.value⟩

/-- `Temperature::as_celsius`: `self.raw as f32 * 200.0 / 2047.0 - 50.0`,
modelled in exact rational arithmetic. -/
def Temperature.as_celsius (t : Temperature) : ℚ :=
  (t.raw : ℚ) * 200 / 2047 - 50

/-- The `for _ in 0..9` loop of `Tsic::read_packet`: per bit, wait for the
line to go low, busy-wait the strobe time, sample via `is_high`, shift the
accumulator left (in `u16`, wrapping modulo `2 ^ 16`) and or in the sampled
bit, then wait for the line to return high. -/
def readPacketLoop (strobe : Nat) : Nat → Nat → Trace → Res Nat
  | 0, bits, t => ⟨.ok bits, [], t⟩
  | n + 1, bits, t =>
      Res.bind (waitUntilLow t) fun _ t1 =>
      Res.bind (delayUs strobe t1) fun _ t2 =>
      Res.bind (isHigh t2) fun b t3 =>
      Res.bind (waitUntilHigh t3) fun _ t4 =>
      readPacketLoop strobe n (((bits <<< 1) % 65536) ||| (if b then 1 else 0)) t4

/-- The final `Packet::new(packet_bits)` of `Tsic::read_packet`, converting
the validation result into the outcome of the read. -/
def validatePacket (bits : Nat) (t : Trace) : Res Packet :=
  match Packet.new bits with
  | .ok p => ⟨.ok p, [], t⟩
  | .error e => ⟨.err e, [], t⟩

/-- `Tsic::read_packet`: wait for the start falling edge, measure the strobe
length (truncated to `u8` by `as_micros() as u8`), read 9 bits, validate. -/
def read_packet (t : Trace) : Res Packet :=
  Res.bind (waitUntilLow t) fun _ t1 =>
  Res.bind (strobe_len t1) fun d t2 =>
  Res.bind (readPacketLoop (d % 256) 9 0 t2) fun bits t3 =>
  validatePacket bits t3

/-- Result of `Tsic::read`: status, attempted supply-pin writes (`true` =
set high), microsecond delays performed, and the remaining trace. -/
structure ReadRes where
  status : Status Temperature
  writes : List Bool
  delays : List Nat
  trace : Trace
deriving DecidableEq, Repr

/-- `Tsic::maybe_power_up_sensor`.  `managed` is whether `vdd_pin` is
`Some`; `upOk` is whether the single `set_high` call would succeed.  Returns
the result together with the attempted writes and the delays performed
(`VDD_POWER_UP_DELAY` is 50 µs). -/
def maybe_power_up_sensor (managed upOk : Bool) :
    Except TsicError Unit × List Bool × List Nat :=
  if managed then
    if upOk then (.ok (), [true], [50])
    else (.error .PinWriteError, [true], [])
  else (.ok (), [], [])

/-- `Tsic::maybe_power_down_sensor`.  `downOk` is whether the single
`set_low` call would succeed. -/
def maybe_power_down_sensor (managed downOk : Bool) :
    Except TsicError Unit × List Bool :=
  if managed then
    if downOk then (.ok (), [false]) else (.error .PinWriteError, [false])
  else (.ok (), [])

/-- `Tsic::read`.  `managed` is whether the session owns the supply pin;
`upOk` / `downOk` are the outcomes of the at most one `set_high` and at most
one `set_low` call a read can perform. -/
def Tsic.read (managed upOk downOk : Bool) (t : Trace) : ReadRes :=
  match maybe_power_up_sensor managed upOk with
  | (.error e, w, ds) => ⟨.err e, w, ds, t⟩
  | (.ok _, w0, ds0) =>
    match read_packet t with
    | ⟨.hang, ds1, t1⟩ => ⟨.hang, w0, ds0 ++ ds1, t1⟩
    | ⟨.err e, ds1, t1⟩ =>
        ⟨.err e, w0 ++ (maybe_power_down_sensor managed downOk).2,
          ds0 ++ ds1, t1⟩
    | ⟨.ok p1, ds1, t1⟩ =>
      match read_packet t1 with
      | ⟨.hang, ds2, t2⟩ => ⟨.hang, w0, ds0 ++ ds1 ++ ds2, t2⟩
      | ⟨.err e, ds2, t2⟩ =>
          ⟨.err e, w0 ++ (maybe_power_down_sensor managed downOk).2,
            ds0 ++ ds1 ++ ds2, t2⟩
      | ⟨.ok p2, ds2, t2⟩ =>
        match maybe_power_down_sensor managed downOk with
        | (.error e, w1) => ⟨.err e, w0 ++ w1, ds0 ++ ds1 ++ ds2, t2⟩
        | (.ok _, w1) =>
            ⟨.ok (Temperature.new p1 p2), w0 ++ w1, ds0 ++ ds1 ++ ds2, t2⟩

/-- Number of set bits of a 9-bit value as the spec counts them: the number
of set positions among bits 0 to 8. -/
def popcount9 (v : Nat) : Nat :=
  ((List.range 9).filter fun i => v.testBit i).length

/-- Modelled from the spec wording: block until the line is observed at
level `lvl` (pin-read failures propagate). -/
def specBlockUntil (lvl : Bool) : Trace → Res Unit
  | [] => ⟨.hang, [], []⟩
  | none :: rest => ⟨.err .PinReadError, [], rest⟩
  | some b :: rest =>
      if b = lvl then ⟨.ok (), [], rest⟩ else specBlockUntil lvl rest

/-- Modelled from the spec wording: the strobe measurement counts
consecutive low observations, busy-waiting the fixed 8 µs increment after
each one, and stops as soon as the line is observed high.  Returns the
number of low observations. -/
def specLowTicks : Trace → Res Nat
  | [] => ⟨.hang, [], []⟩
  | none :: rest => ⟨.err .PinReadError, [], rest⟩
  | some false :: rest =>
      match specLowTicks rest with
      | ⟨.ok n, ds, tr⟩ => ⟨.ok (n + 1), 8 :: ds, tr⟩
      | ⟨.err e, ds, tr⟩ => ⟨.err e, 8 :: ds, tr⟩
      | ⟨.hang, ds, tr⟩ => ⟨.hang, 8 :: ds, tr⟩
  | some true :: rest => ⟨.ok 0, [], rest⟩

/-- Modelled from the spec wording, one bit window: block until the line is
low, busy-wait the strobe duration, sample the level (1 if high, 0 if low),
shift the accumulator left by one and or the sampled bit in, then block
until the line is high again; repeated for the given number of bits. -/
def specBits (strobe : Nat) : Nat → Nat → Trace → Res Nat
  | 0, acc, t => ⟨.ok acc, [], t⟩
  | k + 1, acc, t =>
      Res.bind (specBlockUntil false t) fun _ t1 =>
      Res.bind (delayUs strobe t1) fun _ t2 =>
      Res.bind (isHigh t2) fun b t3 =>
      Res.bind (specBlockUntil true t3) fun _ t4 =>
      specBits strobe k (2 * acc + (if b then 1 else 0)) t4

/-- Modelled from the spec wording (claim C1): block until the line is low,
measure the strobe duration by accumulating the fixed 8 µs increment per
consecutive low observation, then acquire exactly 9 bits MSB first,
busy-waiting the measured strobe duration (as the 8-bit argument handed to
the microsecond delay capability) before each sample.  Returns the raw
9-bit value. -/
def acquirePacketSpec (t : Trace) : Res Nat :=
  Res.bind (specBlockUntil false t) fun _ t1 =>
  Res.bind (specLowTicks t1) fun n t2 =>
  specBits (8 * n % 256) 9 0 t2

/-- A trace of one clean all-zero packet: a start group (falling edge, one
low strobe sample, rising edge) followed by nine bit groups that each go
low, sample low, and return high. -/
def goodPacketTrace : Trace :=
  List.flatten (List.replicate 10 [some false, some false, some true])

/-- Nine bit groups that each go low, sample low, and return high. -/
def nineZeroBitGroups : Trace :=
  List.flatten (List.replicate 9 [some false, some false, some true])

/-- A trace whose strobe measurement accumulates 32 low observations, so
the measured duration is 256 µs; the nine bit groups follow. -/
def wrapStrobeTrace : Trace :=
  some false :: (List.replicate 32 (some false) ++ some true :: nineZeroBitGroups)


deriving instance DecidableEq for Except

/-! Helper lemmas on natural-number bit operations. -/

theorem two_mul_lor_one (a : Nat) : 2 * a ||| 1 = 2 * a + 1 := by
  have h := Nat.lor_bit false a true 0
  simpa [Nat.bit] using h

theorem shiftLeft_lor_eq_add :
    ∀ (n x y : Nat), y < 2 ^ n → (x <<< n) ||| y = x * 2 ^ n + y := by
  intro n
  induction n with
  | zero =>
      intro x y hy
      interval_cases y
      simp [Nat.shiftLeft_zero, Nat.or_zero]
  | succ n ih =>
      intro x y hy
      have hsplit : Nat.bit (decide (y % 2 = 1)) (y / 2) = y := by
        rw [Nat.bit_val]
        rcases Nat.mod_two_eq_zero_or_one y with h | h <;> simp [h] <;> omega
      have hx : x <<< (n + 1) = Nat.bit false (x <<< n) := by
        simp [Nat.bit, Nat.shiftLeft_succ, Nat.mul_comm]
      have hy2 : y / 2 < 2 ^ n := by
        have : 2 ^ (n + 1) = 2 * 2 ^ n := by ring
        omega
      calc (x <<< (n + 1)) ||| y
          = Nat.bit false (x <<< n) ||| Nat.bit (decide (y % 2 = 1)) (y / 2) := by
            rw [hx, hsplit]
        _ = Nat.bit (false || decide (y % 2 = 1)) ((x <<< n) ||| (y / 2)) :=
            Nat.lor_bit _ _ _ _
        _ = Nat.bit (decide (y % 2 = 1)) (x * 2 ^ n + y / 2) := by
            rw [ih x (y / 2) hy2, Bool.false_or]
        _ = x * 2 ^ (n + 1) + y := by
            rw [Nat.bit_val]
            rcases Nat.mod_two_eq_zero_or_one y with h | h <;> simp [h] <;> ring_nf <;> omega

theorem shiftLeft_land_eq_zero (n x y : Nat) (hy : y < 2 ^ n) :
    (x <<< n) &&& y = 0 := by
  apply Nat.eq_of_testBit_eq
  intro i
  rw [Nat.testBit_land, Nat.zero_testBit, Nat.testBit_shiftLeft]
  by_cases hi : n ≤ i
  · have hpow : (2 : Nat) ^ n ≤ 2 ^ i := Nat.pow_le_pow_right (by norm_num) hi
    have : y.testBit i = false := Nat.testBit_eq_false_of_lt (lt_of_lt_of_le hy hpow)
    simp [this]
  · simp [hi]

set_option maxRecDepth 10000 in
set_option maxHeartbeats 1000000 in
/-- Exhaustive parity table for `Packet::new` over all 9-bit inputs. -/
theorem packet_new_table : ∀ w, w < 512 →
    Packet.new w =
      if popcount9 w % 2 = 0 then .ok ⟨w⟩ else .error .ParityCheckFailed := by
  decide

/-- C2: for all 9-bit raw values, validation succeeds iff the number of set
bits is even; on success the packet value is the raw value shifted right by
one, and on failure a parity error is returned with no partial value. -/
theorem packet_validation_parity (v : Nat) (hv : v < 512) :
    ((Packet.new v).isOk = true ↔ popcount9 v % 2 = 0) ∧
    (popcount9 v % 2 = 0 → Packet.new v = .ok ⟨v⟩) ∧
    (popcount9 v % 2 ≠ 0 → Packet.new v = .error .ParityCheckFailed) ∧
    (∀ p, Packet.new v = .ok p → p.value = v >>> 1) := by
  have h := packet_new_table v hv
  by_cases hp : popcount9 v % 2 = 0
  · rw [if_pos hp] at h
    refine ⟨?_, fun _ => h, fun hc => absurd hp hc, ?_⟩
    · simp [h, hp, Except.isOk, Except.toBool]
    · intro p hpk
      rw [h] at hpk
      cases hpk
      rfl
  · rw [if_neg hp] at h
    refine ⟨?_, fun hc => absurd hc hp, fun _ => h, ?_⟩
    · simp [h, hp, Except.isOk, Except.toBool]
    · intro p hpk
      rw [h] at hpk
      simp at hpk

/-- Witness for C2 at the spec scenario `0b111111110`: popcount 8 is even,
so validation succeeds. -/
theorem packet_validation_parity_witness : Packet.new 510 = .ok ⟨510⟩ :=
  (packet_validation_parity 510 (by norm_num)).2.1 (by decide)

/-- C3: combining two validated packets with 8-bit values gives a raw
temperature equal to the first value shifted left by 8, or-ed with the
second value. -/
theorem temperature_combines_bytes (p q : Packet)
    (hp : p.value < 256) (hq : q.value < 256) :
    (Temperature.new p q).raw = (p.value <<< 8) ||| q.value := by
  unfold Temperature.new
  have h : p.value <<< 8 = p.value * 2 ^ 8 := Nat.shiftLeft_eq _ _
  have hlt : p.value <<< 8 < 65536 := by
    rw [h]
    norm_num
    omega
  simp [Nat.mod_eq_of_lt hlt]

/-- Witness for C3 at the spec scenario: first value `0x19` = 25, second
value `0x33` = 51. -/
theorem temperature_combines_bytes_witness :
    (Temperature.new ⟨50⟩ ⟨102⟩).raw =
      ((⟨50⟩ : Packet).value <<< 8) ||| (⟨102⟩ : Packet).value :=
  temperature_combines_bytes ⟨50⟩ ⟨102⟩ (by decide) (by decide)

/-- C8: the Celsius conversion is monotone in the raw value, equal to the
linear function raw · 200/2047 − 50, and maps 0 to −50 and 2047 to 150. -/
theorem as_celsius_linear_monotone :
    (∀ a b : Temperature, a.raw ≤ b.raw → a.as_celsius ≤ b.as_celsius) ∧
    (∀ t : Temperature, t.as_celsius = (200 / 2047 : ℚ) * t.raw - 50) ∧
    (Temperature.mk 0).as_celsius = -50 ∧
    (Temperature.mk 2047).as_celsius = 150 := by
  refine ⟨?_, ?_, ?_, ?_⟩
  · intro a b h
    unfold Temperature.as_celsius
    have hc : (a.raw : ℚ) ≤ b.raw := by exact_mod_cast h
    gcongr
  · intro t
    unfold Temperature.as_celsius
    ring
  · unfold Temperature.as_celsius
    norm_num
  · unfold Temperature.as_celsius
    norm_num

/-- Witness for C8: monotonicity applied at the endpoints. -/
theorem as_celsius_linear_monotone_witness :
    (Temperature.mk 0).as_celsius ≤ (Temperature.mk 2047).as_celsius :=
  as_celsius_linear_monotone.1 ⟨0⟩ ⟨2047⟩ (by norm_num)

/-- The supply-pin write attempted by a managed power-down is the single
low write, whether or not it succeeds. -/
theorem maybe_power_down_writes (d : Bool) :
    (maybe_power_down_sensor true d).2 = [false] := by
  cases d <;> rfl

/-- C4 counterexample: on a managed session whose power-up write fails,
`read` takes an error exit yet never attempts a power-down — the only
attempted supply-pin write is the failed high write, so not every error
exit routes through a power-down. -/
theorem read_power_up_failure_cex :
    (Tsic.read true false true []).status = Status.err TsicError.PinWriteError ∧
    (Tsic.read true false true []).writes = [true] ∧
    (Tsic.read true false true []).writes.count false = 0 := by
  decide

/-- C4 (amended): on a managed session, every exit of `read` reached after
a successful power-up — success, first-packet failure or second-packet
failure — performs exactly one power-down write; a power-up write failure,
however, surfaces immediately without any power-down attempt. -/
theorem read_power_down_coverage (downOk : Bool) (t : Trace) :
    ((Tsic.read true true downOk t).status ≠ Status.hang →
      (Tsic.read true true downOk t).writes = [true, false]) ∧
    ((Tsic.read true false downOk t).status = Status.err TsicError.PinWriteError ∧
      (Tsic.read true false downOk t).writes = [true]) := by
  constructor
  · intro hs
    cases h1 : read_packet t with
    | mk st1 ds1 t1 =>
      cases st1 with
      | hang => exact absurd (by simp [Tsic.read, maybe_power_up_sensor, h1]) hs
      | err e =>
          simp [Tsic.read, maybe_power_up_sensor, h1, maybe_power_down_writes]
      | ok p1 =>
        cases h2 : read_packet t1 with
        | mk st2 ds2 t2 =>
          cases st2 with
          | hang =>
              exact absurd (by simp [Tsic.read, maybe_power_up_sensor, h1, h2]) hs
          | err e =>
              simp [Tsic.read, maybe_power_up_sensor, h1, h2, maybe_power_down_writes]
          | ok p2 =>
              cases downOk <;>
                simp [Tsic.read, maybe_power_up_sensor, maybe_power_down_sensor, h1, h2]
  · constructor <;> simp [Tsic.read, maybe_power_up_sensor]

/-- Witness for the amended C4: a first-packet read error still yields
exactly one power-up write and one power-down write. -/
theorem read_power_down_coverage_witness :
    (Tsic.read true true true [none]).writes = [true, false] :=
  (read_power_down_coverage true [none]).1 (by decide)

/-- C5: if acquiring the first packet fails, the read returns that same
failure, the supply pin sees exactly one power-down write (after the one
power-up write), no delay beyond the power-up delay and the first packet's
own delays is performed, and the trace is left exactly where the first
packet failed — no sample of the second packet is ever read. -/
theorem read_first_packet_failure_short_circuits (downOk : Bool) (t : Trace)
    (e : TsicError) (ds1 : List Nat) (t1 : Trace)
    (h : read_packet t = ⟨.err e, ds1, t1⟩) :
    Tsic.read true true downOk t = ⟨.err e, [true, false], 50 :: ds1, t1⟩ := by
  simp [Tsic.read, maybe_power_up_sensor, h, maybe_power_down_writes]

/-- Witness for C5: a pin-read failure on the very first sample. -/
theorem read_first_packet_failure_short_circuits_witness :
    Tsic.read true true true [none] =
      ⟨.err .PinReadError, [true, false], [50], []⟩ :=
  read_first_packet_failure_short_circuits true [none] .PinReadError [] []
    (by decide)

/-- C6: with a failing power-down, a read whose two packets succeed surfaces
the power-down write error, while a read whose first or second packet fails
returns that packet failure unmasked (the power-down failure is
suppressed). -/
theorem read_power_down_error_policy (t : Trace) :
    (∀ p1 ds1 t1 p2 ds2 t2,
        read_packet t = ⟨.ok p1, ds1, t1⟩ →
        read_packet t1 = ⟨.ok p2, ds2, t2⟩ →
        (Tsic.read true true false t).status = Status.err TsicError.PinWriteError) ∧
    (∀ e ds1 t1,
        read_packet t = ⟨.err e, ds1, t1⟩ →
        (Tsic.read true true false t).status = Status.err e) ∧
    (∀ p1 ds1 t1 e ds2 t2,
        read_packet t = ⟨.ok p1, ds1, t1⟩ →
        read_packet t1 = ⟨.err e, ds2, t2⟩ →
        (Tsic.read true true false t).status = Status.err e) := by
  refine ⟨?_, ?_, ?_⟩ <;> intros <;>
    simp [Tsic.read, maybe_power_up_sensor, maybe_power_down_sensor, *]

/-- Witness for C6: two clean all-zero packets followed by a failing
power-down surface the write error. -/
theorem read_power_down_error_policy_witness :
    (Tsic.read true true false (goodPacketTrace ++ goodPacketTrace)).status =
      Status.err TsicError.PinWriteError :=
  (read_power_down_error_policy (goodPacketTrace ++ goodPacketTrace)).1
    ⟨0⟩ [8, 8, 8, 8, 8, 8, 8, 8, 8, 8] goodPacketTrace
    ⟨0⟩ [8, 8, 8, 8, 8, 8, 8, 8, 8, 8] []
    (by decide) (by decide)

/-- C7: without a supply-pin capability, power-up and power-down never
fail, never write a pin and never delay; the rest of the read is identical
to the fully managed run on the same trace — same status, same remaining
trace, and the same delays except for the managed run's extra leading
50 µs stabilization delay. -/
theorem unmanaged_power_ops_noops (upOk downOk : Bool) (t : Trace) :
    maybe_power_up_sensor false upOk = (.ok (), [], []) ∧
    maybe_power_down_sensor false downOk = (.ok (), []) ∧
    (Tsic.read false upOk downOk t).writes = [] ∧
    (Tsic.read false upOk downOk t).status = (Tsic.read true true true t).status ∧
    (Tsic.read false upOk downOk t).trace = (Tsic.read true true true t).trace ∧
    (Tsic.read true true true t).delays = 50 :: (Tsic.read false upOk downOk t).delays := by
  cases h1 : read_packet t with
  | mk st1 ds1 t1 =>
    cases st1 with
    | hang =>
        refine ⟨rfl, rfl, ?_, ?_, ?_, ?_⟩ <;>
          simp [Tsic.read, maybe_power_up_sensor, maybe_power_down_sensor, h1]
    | err e =>
        refine ⟨rfl, rfl, ?_, ?_, ?_, ?_⟩ <;>
          simp [Tsic.read, maybe_power_up_sensor, maybe_power_down_sensor, h1]
    | ok p1 =>
      cases h2 : read_packet t1 with
      | mk st2 ds2 t2 =>
        cases st2 <;>
          refine ⟨rfl, rfl, ?_, ?_, ?_, ?_⟩ <;>
            simp [Tsic.read, maybe_power_up_sensor, maybe_power_down_sensor, h1, h2]

/-- The wait for a falling edge performs no busy-wait delays. -/
theorem waitUntilLow_delays (t : Trace) : (waitUntilLow t).delays = [] := by
  induction t with
  | nil => rfl
  | cons o rest ih =>
    cases o with
    | none => rfl
    | some b => cases b with
      | true => simpa [waitUntilLow] using ih
      | false => rfl

/-- The wait for a rising edge performs no busy-wait delays. -/
theorem waitUntilHigh_delays (t : Trace) : (waitUntilHigh t).delays = [] := by
  induction t with
  | nil => rfl
  | cons o rest ih =>
    cases o with
    | none => rfl
    | some b => cases b with
      | true => rfl
      | false => simpa [waitUntilHigh] using ih

/-- Packet validation performs no busy-wait delays. -/
theorem validatePacket_delays (bits : Nat) (t : Trace) :
    (validatePacket bits t).delays = [] := by
  unfold validatePacket
  cases Packet.new bits <;> rfl

/-- Bit-accumulation invariant of the 9-bit loop: starting from an
accumulator bounded so that the remaining shifts stay below `2 ^ 9`, the
final accumulated value is below `2 ^ 9`. -/
theorem readPacketLoop_ok_lt :
    ∀ (n acc strobe : Nat) (t : Trace) (bits : Nat),
      (acc + 1) * 2 ^ n ≤ 512 →
      (readPacketLoop strobe n acc t).status = .ok bits → bits < 512 := by
  intro n
  induction n with
  | zero =>
      intro acc strobe t bits hb h
      simp [readPacketLoop] at h
      omega
  | succ n ih =>
      intro acc strobe t bits hb h
      have hpow : (2 : Nat) ≤ 2 ^ (n + 1) := by
        calc (2 : Nat) = 2 ^ 1 := by norm_num
          _ ≤ 2 ^ (n + 1) := Nat.pow_le_pow_right (by norm_num) (by omega)
      have h2a : 2 * acc < 65536 := by
        have := Nat.mul_le_mul_left (acc + 1) hpow
        nlinarith
      rw [readPacketLoop] at h
      cases h1 : waitUntilLow t with
      | mk st1 dsa ta =>
        cases st1 with
        | err e => rw [h1] at h; simp [Res.bind] at h
        | hang => rw [h1] at h; simp [Res.bind] at h
        | ok u =>
          rw [h1] at h
          simp only [Res.bind, delayUs] at h
          cases h2 : isHigh ta with
          | mk st2 dsb tb =>
            cases st2 with
            | err e => rw [h2] at h; simp at h
            | hang => rw [h2] at h; simp at h
            | ok b =>
              rw [h2] at h
              simp only at h
              cases h3 : waitUntilHigh tb with
              | mk st3 dsc tc =>
                cases st3 with
                | err e => rw [h3] at h; simp at h
                | hang => rw [h3] at h; simp at h
                | ok u2 =>
                  rw [h3] at h
                  simp only at h
                  have hacc : ((acc <<< 1) % 65536) ||| (if b then 1 else 0) =
                      2 * acc + (if b then 1 else 0) := by
                    rw [Nat.shiftLeft_eq]
                    have hmul : acc * 2 ^ 1 = 2 * acc := by ring
                    rw [hmul, Nat.mod_eq_of_lt h2a]
                    cases b
                    · simp [Nat.or_zero]
                    · simp [two_mul_lor_one]
                  rw [hacc] at h
                  refine ih (2 * acc + (if b then 1 else 0)) strobe tc bits ?_ h
                  have hbit : (if b then 1 else 0) ≤ 1 := by cases b <;> simp
                  have : (2 * acc + (if b then 1 else 0) + 1) * 2 ^ n ≤
                      (acc + 1) * 2 ^ (n + 1) := by
                    rw [pow_succ]
                    nlinarith [Nat.pos_pow_of_pos n (show 0 < 2 by norm_num)]
                  omega

/-- Any packet produced by a completed `read_packet` has raw bits that fit
in 9 bits. -/
theorem read_packet_ok_raw_lt (t : Trace) (p : Packet)
    (h : (read_packet t).status = .ok p) : p.raw_bits < 512 := by
  unfold read_packet at h
  cases h1 : waitUntilLow t with
  | mk st1 ds1 t1 =>
    cases st1 with
    | err e => rw [h1] at h; simp [Res.bind] at h
    | hang => rw [h1] at h; simp [Res.bind] at h
    | ok u =>
      rw [h1] at h
      simp only [Res.bind] at h
      cases h2 : strobe_len t1 with
      | mk st2 ds2 t2 =>
        cases st2 with
        | err e => rw [h2] at h; simp at h
        | hang => rw [h2] at h; simp at h
        | ok d =>
          rw [h2] at h
          simp only at h
          cases h3 : readPacketLoop (d % 256) 9 0 t2 with
          | mk st3 ds3 t3 =>
            cases st3 with
            | err e => rw [h3] at h; simp at h
            | hang => rw [h3] at h; simp at h
            | ok bits =>
              rw [h3] at h
              simp only at h
              have hbits : bits < 512 :=
                readPacketLoop_ok_lt 9 0 (d % 256) t2 bits (by norm_num)
                  (by rw [h3])
              unfold validatePacket at h
              cases hpn : Packet.new bits with
              | ok q =>
                  rw [hpn] at h
                  simp at h
                  unfold Packet.new at hpn
                  split at hpn
                  · cases hpn
                    cases h
                    simpa using hbits
                  · cases hpn
              | error e => rw [hpn] at h; simp at h

/-- C9: every packet acquired by a completed `read_packet` has raw bits
below `2 ^ 9`, hence a value below `2 ^ 8`; for any two such packets the
combined temperature equals the first value shifted into the high byte
or-ed with the second, the two occupy disjoint bit ranges, and the or
coincides with the arithmetic sum — the bytes never overlap. -/
theorem read_packet_bit_bounds (t : Trace) (p : Packet)
    (h : (read_packet t).status = .ok p) :
    p.raw_bits < 512 ∧ p.value < 256 ∧
    ∀ (t2 : Trace) (q : Packet), (read_packet t2).status = .ok q →
      (Temperature.new p q).raw = (p.value <<< 8) ||| q.value ∧
      (p.value <<< 8) &&& q.value = 0 ∧
      (Temperature.new p q).raw = p.value * 256 + q.value := by
  have hp := read_packet_ok_raw_lt t p h
  have hpv : p.value < 256 := by
    unfold Packet.value
    rw [Nat.shiftRight_eq_div_pow]
    omega
  refine ⟨hp, hpv, ?_⟩
  intro t2 q hq
  have hq512 := read_packet_ok_raw_lt t2 q hq
  have hqv : q.value < 256 := by
    unfold Packet.value
    rw [Nat.shiftRight_eq_div_pow]
    omega
  have hqv2 : q.value < 2 ^ 8 := by
    calc q.value < 256 := hqv
      _ = 2 ^ 8 := by norm_num
  have hmod : (p.value <<< 8) % 65536 = p.value <<< 8 := by
    apply Nat.mod_eq_of_lt
    rw [Nat.shiftLeft_eq]
    calc p.value * 2 ^ 8 < 256 * 2 ^ 8 := by
          apply Nat.mul_lt_mul_right (by norm_num) |>.mpr hpv
      _ ≤ 65536 := by norm_num
  refine ⟨?_, ?_, ?_⟩
  · unfold Temperature.new
    simp [hmod]
  · exact shiftLeft_land_eq_zero 8 p.value q.value hqv2
  · unfold Temperature.new
    simp only [hmod]
    rw [shiftLeft_lor_eq_add 8 p.value q.value hqv2]
    norm_num

/-- Witness for C9: two clean all-zero packets, bytes combined without
overlap. -/
theorem read_packet_bit_bounds_witness :
    (Temperature.new ⟨0⟩ ⟨0⟩).raw =
        ((⟨0⟩ : Packet).value <<< 8) ||| (⟨0⟩ : Packet).value ∧
      ((⟨0⟩ : Packet).value <<< 8) &&& (⟨0⟩ : Packet).value = 0 ∧
      (Temperature.new ⟨0⟩ ⟨0⟩).raw =
        (⟨0⟩ : Packet).value * 256 + (⟨0⟩ : Packet).value :=
  (read_packet_bit_bounds goodPacketTrace ⟨0⟩ (by decide)).2.2
    goodPacketTrace ⟨0⟩ (by decide)

/-- When the 9-bit loop completes, it has busy-waited exactly once per bit,
each time for the strobe argument it was given. -/
theorem readPacketLoop_ok_delays :
    ∀ (n acc strobe : Nat) (t : Trace) (bits : Nat),
      (readPacketLoop strobe n acc t).status = .ok bits →
      (readPacketLoop strobe n acc t).delays = List.replicate n strobe := by
  intro n
  induction n with
  | zero => intro acc strobe t bits _; rfl
  | succ n ih =>
      intro acc strobe t bits h
      rw [readPacketLoop] at h ⊢
      cases h1 : waitUntilLow t with
      | mk st1 dsa ta =>
        cases st1 with
        | err e => rw [h1] at h; simp [Res.bind] at h
        | hang => rw [h1] at h; simp [Res.bind] at h
        | ok u =>
          have hdsa : dsa = [] := by
            have hw := waitUntilLow_delays t
            rw [h1] at hw
            exact hw
          subst hdsa
          rw [h1] at h
          simp only [Res.bind, delayUs] at h ⊢
          cases h2 : isHigh ta with
          | mk st2 dsb tb =>
            cases st2 with
            | err e => rw [h2] at h; simp at h
            | hang => rw [h2] at h; simp at h
            | ok b =>
              have hdsb : dsb = [] := by
                cases ta with
                | nil => cases h2
                | cons o rest =>
                    cases o with
                    | none => cases h2
                    | some bb => cases h2; rfl
              subst hdsb
              rw [h2] at h
              simp only at h ⊢
              cases h3 : waitUntilHigh tb with
              | mk st3 dsc tc =>
                cases st3 with
                | err e => rw [h3] at h; simp at h
                | hang => rw [h3] at h; simp at h
                | ok u2 =>
                  have hdsc : dsc = [] := by
                    have hw := waitUntilHigh_delays tb
                    rw [h3] at hw
                    exact hw
                  subst hdsc
                  rw [h3] at h
                  simp only at h ⊢
                  rw [ih _ strobe tc bits h]
                  simp [List.replicate_succ]

/-- C10: the per-bit sampling delay of `read_packet` is the measured strobe
duration reduced modulo 256 — the `as u8` cast wraps instead of saturating
or failing, so a measurement of `d` microseconds busy-waits `d % 256`
microseconds before each of the nine samples. -/
theorem strobe_delay_truncates_mod_256 (t t1 : Trace) (d : Nat)
    (ds : List Nat) (t2 : Trace) (bits : Nat)
    (h1 : waitUntilLow t = ⟨.ok (), [], t1⟩)
    (h2 : strobe_len t1 = ⟨.ok d, ds, t2⟩)
    (h3 : (readPacketLoop (d % 256) 9 0 t2).status = .ok bits) :
    (read_packet t).delays = ds ++ List.replicate 9 (d % 256) := by
  cases hl : readPacketLoop (d % 256) 9 0 t2 with
  | mk st3 ds3 t3 =>
    rw [hl] at h3
    simp only at h3
    subst h3
    have hds3 : ds3 = List.replicate 9 (d % 256) := by
      have hd := readPacketLoop_ok_delays 9 0 (d % 256) t2 bits (by rw [hl])
      rw [hl] at hd
      exact hd
    subst hds3
    unfold read_packet
    rw [h1]
    simp only [Res.bind]
    rw [h2]
    simp only
    rw [hl]
    simp [validatePacket_delays]

/-- Witness for C10: a strobe measurement of 256 µs wraps to a per-bit
delay of 0 µs. -/
theorem strobe_delay_truncates_mod_256_witness :
    (read_packet wrapStrobeTrace).delays =
      List.replicate 32 8 ++ List.replicate 9 0 := by
  have h := strobe_delay_truncates_mod_256 wrapStrobeTrace
      (List.replicate 32 (some false) ++ some true :: nineZeroBitGroups)
      256 (List.replicate 32 8) nineZeroBitGroups 0
      (by decide) (by decide) (by decide)
  simpa using h

/-- The spec-worded "block until low" coincides with `wait_until_low`. -/
theorem specBlockUntil_false (t : Trace) :
    specBlockUntil false t = waitUntilLow t := by
  induction t with
  | nil => rfl
  | cons o rest ih =>
    cases o with
    | none => rfl
    | some b => cases b with
      | true => simpa [specBlockUntil, waitUntilLow] using ih
      | false => simp [specBlockUntil, waitUntilLow]

/-- The spec-worded "block until high" coincides with `wait_until_high`. -/
theorem specBlockUntil_true (t : Trace) :
    specBlockUntil true t = waitUntilHigh t := by
  induction t with
  | nil => rfl
  | cons o rest ih =>
    cases o with
    | none => rfl
    | some b => cases b with
      | true => simp [specBlockUntil, waitUntilHigh]
      | false => simpa [specBlockUntil, waitUntilHigh] using ih

/-- The accumulator loop of `strobe_len` computes 8 µs per spec-counted low
observation, with identical delays and trace consumption. -/
theorem strobeLenAux_spec (t : Trace) : ∀ acc : Nat,
    strobeLenAux acc t =
      ⟨((specLowTicks t).status).map (fun n => acc + 8 * n),
        (specLowTicks t).delays, (specLowTicks t).trace⟩ := by
  induction t with
  | nil => intro acc; rfl
  | cons o rest ih =>
    cases o with
    | none => intro acc; rfl
    | some b =>
      cases b with
      | true => intro acc; simp [strobeLenAux, specLowTicks, Status.map]
      | false =>
          intro acc
          cases hs : specLowTicks rest with
          | mk st ds tr =>
              cases st with
              | ok n =>
                  have := ih (acc + 8)
                  rw [hs] at this
                  simp [strobeLenAux, specLowTicks, hs, this, Status.map]
                  omega
              | err e =>
                  have := ih (acc + 8)
                  rw [hs] at this
                  simp [strobeLenAux, specLowTicks, hs, this, Status.map]
              | hang =>
                  have := ih (acc + 8)
                  rw [hs] at this
                  simp [strobeLenAux, specLowTicks, hs, this, Status.map]

/-- Sequencing after the measured strobe length is sequencing after the
spec-counted low observations, scaled by the 8 µs increment. -/
theorem strobe_len_bind {γ : Type} (t1 : Trace) (K : Nat → Trace → Res γ) :
    Res.bind (strobe_len t1) K =
      Res.bind (specLowTicks t1) (fun n t2 => K (8 * n) t2) := by
  cases h : specLowTicks t1 with
  | mk st ds tr =>
    have hs := strobeLenAux_spec t1 0
    rw [h] at hs
    show Res.bind (strobeLenAux 0 t1) K = _
    rw [hs]
    cases st <;> simp [Res.bind, Status.map]

/-- Associativity of fragment sequencing. -/
theorem Res.bind_assoc {α β γ : Type} (r : Res α) (f : α → Trace → Res β)
    (g : β → Trace → Res γ) :
    Res.bind (Res.bind r f) g =
      Res.bind r (fun a t => Res.bind (f a t) g) := by
  cases r with
  | mk st ds tr =>
    cases st with
    | ok a =>
      show Res.bind (Res.bind ⟨.ok a, ds, tr⟩ f) g = _
      cases hf : f a tr with
      | mk st2 ds2 tr2 =>
        cases st2 <;> simp [Res.bind, hf, List.append_assoc]
    | err e => rfl
    | hang => rfl

/-- While the accumulator stays below `2 ^ 16`, the spec-worded shift-or
accumulation (plain `2·acc + bit`) coincides with the `u16` wrapping
shift-or of the source loop. -/
theorem specBits_eq_readPacketLoop :
    ∀ (k acc strobe : Nat) (t : Trace), (acc + 1) * 2 ^ k ≤ 65536 →
      specBits strobe k acc t = readPacketLoop strobe k acc t := by
  intro k
  induction k with
  | zero => intro acc strobe t _; rfl
  | succ k ih =>
    intro acc strobe t hb
    have hpow : (2 : Nat) ≤ 2 ^ (k + 1) := by
      calc (2 : Nat) = 2 ^ 1 := by norm_num
        _ ≤ 2 ^ (k + 1) := Nat.pow_le_pow_right (by norm_num) (by omega)
    have h2a : 2 * acc < 65536 := by
      have := Nat.mul_le_mul_left (acc + 1) hpow
      nlinarith
    rw [specBits, readPacketLoop, specBlockUntil_false]
    apply congrArg
    funext u t1
    apply congrArg
    funext u2 t2
    apply congrArg
    funext b t3
    rw [specBlockUntil_true]
    apply congrArg
    funext u3 t4
    have harg : ((acc <<< 1) % 65536) ||| (if b then 1 else 0) =
        2 * acc + (if b then 1 else 0) := by
      rw [Nat.shiftLeft_eq]
      have hmul : acc * 2 ^ 1 = 2 * acc := by ring
      rw [hmul, Nat.mod_eq_of_lt h2a]
      cases b
      · simp [Nat.or_zero]
      · simp [two_mul_lor_one]
    rw [harg]
    apply ih
    have hbit : (if b then 1 else 0) ≤ 1 := by cases b <;> simp
    have hstep : (2 * acc + (if b then 1 else 0) + 1) * 2 ^ k ≤
        (acc + 1) * 2 ^ (k + 1) := by
      rw [pow_succ]
      nlinarith [Nat.pos_pow_of_pos k (show 0 < 2 by norm_num)]
    omega

/-- C1: on every trace, `read_packet` is exactly the spec-worded
acquisition — block until low; measure the strobe by accumulating the fixed
8 µs increment (busy-waiting it) once per consecutive low observation until
the line is observed high; then for exactly 9 bits, MSB first: block until
low, busy-wait the measured strobe duration, sample (1 if high), shift left
and or in the bit, block until high — followed by the parity validation of
the accumulated 9-bit value.  The strobe duration is measured once and
reused for all 9 bits. -/
theorem read_packet_matches_spec_acquisition (t : Trace) :
    read_packet t =
      Res.bind (acquirePacketSpec t) fun bits t3 => validatePacket bits t3 := by
  unfold read_packet acquirePacketSpec
  simp only [Res.bind_assoc]
  rw [specBlockUntil_false]
  apply congrArg
  funext u t1
  rw [strobe_len_bind]
  apply congrArg
  funext n t2
  rw [specBits_eq_readPacketLoop 9 0 (8 * n % 256) t2 (by norm_num)]
